import Mathlib

/-!
Shallow embedding of `chainer/datasets/pickle_dataset.py`.

The module defines two classes over a byte stream:

* `PickleDatasetWriter` — `write(x)` records `position = writer.tell()`,
  runs `pickle.dump(x, writer, protocol)`, then `positions.append(position)`.
* `PickleDataset` — `__init__(reader)` rejects non-seekable readers with
  `ValueError`, seeks to 0 and loops `position = tell(); pickle.load(reader)`,
  breaking only on `EOFError` and appending `position` after each successful
  load; `get_example(index)` does, under `with self._lock:`,
  `reader.seek(self.positions[index]); return pickle.load(reader)`;
  `__len__` returns `len(self.positions)`; `close` executes
  `with self._lock(): self.reader.close()`.
* `open_pickle_dataset` / `open_pickle_dataset_writer` — open a file and, if
  construction then fails, close the handle (swallowing close errors) and
  re-raise.

The pickle codec itself is external to the module; it is modelled as a
pluggable `Codec`: `encode` produces the serialized bytes of one value, and
`decode`, applied to the byte suffix at the stream cursor, either returns the
value plus the number of bytes consumed, raises the distinguished clean
end-of-stream signal `EOFError`, or raises some other load error (corrupt or
truncated data). `LawfulCodec` states the framing laws the module relies on:
decoding at a record boundary yields that record and consumes exactly its
encoding, decoding exactly at the end of the stream raises `EOFError`, and no
record has an empty encoding. Bytes are modelled as `Nat`.
-/

/-- A byte of the stream (the concrete 0–255 range is irrelevant here). -/
abbrev Byte := Nat

/-- Outcome of one `pickle.load` call at the stream cursor: a value together
with the number of bytes consumed, the clean end-of-stream signal
(`EOFError`), or any other exception (corrupt or truncated data). -/
inductive DecodeResult (α : Type) where
  | ok (v : α) (consumed : Nat)
  | eofError
  | loadError
deriving DecidableEq

/-- The pluggable serialization codec (the role `pickle` plays for the
module). `decode` acts on the suffix of the stream starting at the cursor. -/
structure Codec (α : Type) where
  encode : α → List Byte
  decode : List Byte → DecodeResult α

/-- Framing laws of a self-delimiting codec: decoding at a record boundary
returns that record and consumes exactly its encoding; decoding exactly at
the end of the stream raises the clean end-of-stream signal; encodings are
never empty. -/
structure LawfulCodec {α : Type} (c : Codec α) : Prop where
  decode_encode : ∀ v rest, c.decode (c.encode v ++ rest) = .ok v (c.encode v).length
  decode_nil : c.decode [] = .eofError
  encode_ne_nil : ∀ v, c.encode v ≠ []

/-- Python exceptions that appear in the module. -/
inductive PyErr where
  | valueError  -- `ValueError('reader must support random access')`
  | loadError   -- a non-EOFError exception from `pickle.load` / `pickle.dump`
  | typeError   -- e.g. calling a non-callable object
  | ioError     -- a failure from the underlying file object
  | noFuel      -- modelling artifact: the decoder made no progress
deriving DecidableEq

/-- Events issued to the underlying reader stream and to the lock. -/
inductive Ev where
  | seekableQ      -- `reader.seekable()`
  | seek (p : Nat) -- `reader.seek(p)`
  | tell           -- `reader.tell()`
  | load           -- `pickle.load(reader)` (reads from the stream)
  | acquire        -- the mutual-exclusion lock is acquired
  | release        -- the mutual-exclusion lock is released
deriving DecidableEq

/-- The state of `PickleDatasetWriter`: the recorded offsets and the bytes
written so far (the file is opened fresh in `'bw'` mode, so
`writer.tell() = streamData.length`). -/
structure PickleDatasetWriter where
  positions : List Nat
  streamData : List Byte
deriving DecidableEq

/-- The writer over a freshly opened (truncated) file. -/
def PickleDatasetWriter.empty : PickleDatasetWriter := ⟨[], []⟩

/-- `PickleDatasetWriter.write(self, x)`:
`position = self.writer.tell(); pickle.dump(x, self.writer, protocol);
self.positions.append(position)`. -/
def PickleDatasetWriter.write {α : Type} (c : Codec α) (w : PickleDatasetWriter)
    (x : α) : PickleDatasetWriter :=
  let position := w.streamData.length
  { positions := w.positions ++ [position]
    streamData := w.streamData ++ c.encode x }

/-- `PickleDatasetWriter.write` with the fallibility of `pickle.dump` made
explicit: `dump x` either returns the full encoding, or raises after having
emitted a prefix of bytes to the stream.  On `.error`, the exception
propagates before `self.positions.append(position)` runs, so the returned
(post-exception) writer state keeps `positions` unchanged while the stream
holds the partially written bytes. -/
def PickleDatasetWriter.writeD {α : Type} (w : PickleDatasetWriter)
    (dump : α → Except (List Byte) (List Byte)) (x : α) :
    Except PickleDatasetWriter PickleDatasetWriter :=
  let position := w.streamData.length
  match dump x with
  | .error emitted =>
      .error { positions := w.positions, streamData := w.streamData ++ emitted }
  | .ok bs =>
      .ok { positions := w.positions ++ [position], streamData := w.streamData ++ bs }

/-- A sequence of `write` calls in order. -/
def writeAll {α : Type} (c : Codec α) (w : PickleDatasetWriter) (vs : List α) :
    PickleDatasetWriter :=
  vs.foldl (PickleDatasetWriter.write c) w

/-- The underlying reader file object: whether it supports random access, its
contents, and its cursor. -/
structure ReaderStream where
  seekable : Bool
  data : List Byte
  pos : Nat
deriving DecidableEq

/-- The state of a constructed `PickleDataset`: the offset index and the
reader stream. -/
structure PickleDataset (α : Type) where
  positions : List Nat
  reader : ReaderStream
deriving DecidableEq

/-- The index-build loop of `PickleDataset.__init__`:
`while True: position = reader.tell(); try: pickle.load(reader)
except EOFError: break; self.positions.append(position)`.
`pickle.load` decodes the suffix of `data` at the cursor and advances the
cursor by the consumed byte count; only `EOFError` ends the loop, any other
exception propagates.  The loop is fuelled to stay total; `.noFuel` can only
arise for a decoder that consumes no bytes, which the fuel passed by
`PickleDataset.init` rules out for lawful codecs. -/
def scanLoop {α : Type} (c : Codec α) (data : List Byte) :
    Nat → Nat → List Nat → List Ev → (Except PyErr (List Nat × Nat)) × List Ev
  | 0, _, _, tr => (.error .noFuel, tr)
  | fuel + 1, pos, acc, tr =>
    match c.decode (data.drop pos) with
    | .ok _ consumed => scanLoop c data fuel (pos + consumed) (acc ++ [pos]) (tr ++ [.tell, .load])
    | .eofError => (.ok (acc, pos), tr ++ [.tell, .load])
    | .loadError => (.error .loadError, tr ++ [.tell, .load])

/-- `PickleDataset.__init__(self, reader)`: raise `ValueError` when
`reader.seekable()` is false, else `reader.seek(0)` and run the index-build
loop.  Returns the constructed dataset (or the propagated exception) together
with the trace of stream events issued.  On success the reader cursor rests
where the loop hit `EOFError`. -/
def PickleDataset.init {α : Type} (c : Codec α) (r : ReaderStream) :
    (Except PyErr (PickleDataset α)) × List Ev :=
  if r.seekable = false then
    (.error .valueError, [.seekableQ])
  else
    let scanned := scanLoop c r.data (r.data.length + 1) 0 [] [.seekableQ, .seek 0]
    match scanned.1 with
    | .ok (ps, endPos) => (.ok ⟨ps, { r with pos := endPos }⟩, scanned.2)
    | .error e => (.error e, scanned.2)

/-- Python list subscription with an `int` index, as in `self.positions[index]`:
a negative index counts from the end; out-of-range lookups raise `IndexError`
(here: `none`). -/
def pyListGet {γ : Type} (l : List γ) (i : Int) : Option γ :=
  if 0 ≤ i then l.get? i.toNat
  else if -(l.length : Int) ≤ i then l.get? (l.length - (-i).toNat)
  else none

/-- Exceptions `PickleDataset.get_example` can raise. -/
inductive GetErr where
  | indexError -- `self.positions[index]` out of range
  | eofError   -- `pickle.load` hit end of stream (no handler here: propagates)
  | loadError  -- any other `pickle.load` failure
deriving DecidableEq

/-- `PickleDataset.get_example(self, index)`:
`with self._lock: self.reader.seek(self.positions[index]);
return pickle.load(self.reader)`.
Returns the result, the dataset state afterwards (only the reader cursor can
change), and the lock/stream event trace.  The index lookup is evaluated
before `seek` is invoked, so a failed lookup issues no stream event; the lock
is released on every exit path of the `with` block. -/
def PickleDataset.get_example {α : Type} (c : Codec α) (d : PickleDataset α)
    (index : Int) : (Except GetErr α) × PickleDataset α × List Ev :=
  match pyListGet d.positions index with
  | none => (.error .indexError, d, [.acquire, .release])
  | some p =>
    match c.decode (d.reader.data.drop p) with
    | .ok v consumed =>
        (.ok v, { d with reader := { d.reader with pos := p + consumed } },
         [.acquire, .seek p, .load, .release])
    | .eofError =>
        (.error .eofError, { d with reader := { d.reader with pos := p } },
         [.acquire, .seek p, .load, .release])
    | .loadError =>
        (.error .loadError, { d with reader := { d.reader with pos := p } },
         [.acquire, .seek p, .load, .release])

/-- `PickleDataset.__len__(self)`: `return len(self.positions)`.  It touches
neither the stream nor the lock, hence the empty event trace. -/
def PickleDataset.length {α : Type} (d : PickleDataset α) : Nat × List Ev :=
  (d.positions.length, [])

/-- `self._lock()` as executed by `PickleDataset.close`: the source writes
`with self._lock():`, which *calls* the `threading.RLock` object stored in
`self._lock`; RLock objects are not callable, so the call raises `TypeError`
(contrast `get_example`, which correctly uses `with self._lock:`). -/
def callLockObject : Except PyErr Unit := .error .typeError

/-- `PickleDataset.close(self)`: `with self._lock(): self.reader.close()`.
Returns `true` iff `self.reader.close()` was reached. -/
def PickleDataset.close {α : Type} (_d : PickleDataset α) : Except PyErr Bool := do
  let _u ← callLockObject
  pure true

/-- Environment of `open_pickle_dataset`: the outcome of `open(path, 'br')`
and whether `reader.close()` would itself raise during cleanup. -/
structure OpenEnv where
  openResult : Except PyErr ReaderStream
  closeRaises : Bool

/-- `open_pickle_dataset(path)`: open the file, construct `PickleDataset`
over it; if construction raises, `try: reader.close() except Exception: pass`
and re-raise the original exception.  The boolean records whether `close` was
invoked on the just-opened handle. -/
def open_pickle_dataset {α : Type} (c : Codec α) (env : OpenEnv) :
    Except PyErr (PickleDataset α) × Bool :=
  match env.openResult with
  | .error e => (.error e, false)
  | .ok reader =>
    match (PickleDataset.init c reader).1 with
    | .ok d => (.ok d, false)
    | .error e =>
      match (if env.closeRaises then (Except.error PyErr.ioError : Except PyErr Unit)
             else .ok ()) with
      | .ok _ => (.error e, true)
      | .error _ => (.error e, true)

/-- `open_pickle_dataset_writer(path, protocol)`: open the file and construct
`PickleDatasetWriter` over it; the constructor only stores its arguments and
cannot fail, so the cleanup branch of the source is unreachable. -/
def open_pickle_dataset_writer (openResult : Except PyErr Unit) :
    Except PyErr PickleDatasetWriter × Bool :=
  match openResult with
  | .error e => (.error e, false)
  | .ok _ => (.ok PickleDatasetWriter.empty, false)

/-! ### A concrete lawful codec, used for witnesses

`lenCodec` is a length-prefixed framing over `α = Nat`: a record `v` is the
two bytes `[1, v]` (payload length, then payload).  Decoding an empty suffix
is the clean end of stream; a lone header byte is a truncated record; a
header other than `1` is corrupt. -/

def lenCodec : Codec Nat where
  encode v := [1, v]
  decode
    | [] => .eofError
    | 1 :: v :: _ => .ok v 2
    | _ :: _ => .loadError

theorem lenCodec_lawful : LawfulCodec lenCodec := by
  refine ⟨?_, rfl, ?_⟩
  · intro v rest; rfl
  · intro v; simp [lenCodec]

/-! ### The byte stream and offset index produced by a sequence of writes -/

/-- The byte stream holding the back-to-back encodings of `vs`. -/
def encStream {α : Type} (c : Codec α) (vs : List α) : List Byte :=
  (vs.map c.encode).flatten

/-- The offsets of the records of `vs` when their encodings are laid out
back-to-back starting at byte position `base`. -/
def offsetsFrom {α : Type} (c : Codec α) : Nat → List α → List Nat
  | _, [] => []
  | base, v :: vs => base :: offsetsFrom c (base + (c.encode v).length) vs

theorem encStream_nil {α : Type} (c : Codec α) : encStream c [] = [] := rfl

theorem encStream_cons {α : Type} (c : Codec α) (v : α) (vs : List α) :
    encStream c (v :: vs) = c.encode v ++ encStream c vs := by
  simp [encStream]

theorem length_offsetsFrom {α : Type} (c : Codec α) :
    ∀ (vs : List α) (base : Nat), (offsetsFrom c base vs).length = vs.length
  | [], _ => rfl
  | _ :: vs, base => by simp [offsetsFrom, length_offsetsFrom c vs]

theorem length_le_length_encStream {α : Type} {c : Codec α} (hc : LawfulCodec c) :
    ∀ vs : List α, vs.length ≤ (encStream c vs).length
  | [] => Nat.le_refl 0
  | v :: vs => by
    have h1 : 1 ≤ (c.encode v).length :=
      List.length_pos.mpr (hc.encode_ne_nil v)
    have h2 := length_le_length_encStream hc vs
    simp only [encStream_cons, List.length_append, List.length_cons]
    omega

theorem drop_add_of_drop_eq {s rest a : List Byte} {pos : Nat}
    (h : s.drop pos = a ++ rest) : s.drop (pos + a.length) = rest := by
  rw [← List.drop_drop, h, List.drop_left]

/-- Running the writer appends the encodings to the stream and the
corresponding offsets to the index. -/
theorem writeAll_eq {α : Type} (c : Codec α) :
    ∀ (vs : List α) (w : PickleDatasetWriter),
      writeAll c w vs
        = ⟨w.positions ++ offsetsFrom c w.streamData.length vs,
           w.streamData ++ encStream c vs⟩
  | [], w => by simp [writeAll, offsetsFrom, encStream_nil]
  | v :: vs, w => by
    have ih := writeAll_eq c vs (PickleDatasetWriter.write c w v)
    simp only [writeAll, List.foldl_cons] at ih ⊢
    rw [ih]
    simp [PickleDatasetWriter.write, offsetsFrom, encStream_cons]

/-- The index-build loop over a stream whose tail at `pos` is exactly the
back-to-back encodings of `vs`: it collects the record offsets and stops on
the clean end-of-stream signal with the cursor at the end. -/
theorem scan_ok {α : Type} {c : Codec α} (hc : LawfulCodec c) :
    ∀ (vs : List α) (fuel pos : Nat) (acc : List Nat) (tr : List Ev) (s : List Byte),
      s.drop pos = encStream c vs → vs.length + 1 ≤ fuel →
      (scanLoop c s fuel pos acc tr).1
        = .ok (acc ++ offsetsFrom c pos vs, pos + (encStream c vs).length)
  | [], fuel, pos, acc, tr, s, h, hf => by
    obtain ⟨f, rfl⟩ : ∃ f, fuel = f + 1 := ⟨fuel - 1, by omega⟩
    rw [encStream_nil] at h
    simp [scanLoop, h, hc.decode_nil, offsetsFrom, encStream_nil]
  | v :: vs, fuel, pos, acc, tr, s, h, hf => by
    obtain ⟨f, rfl⟩ : ∃ f, fuel = f + 1 := ⟨fuel - 1, by omega⟩
    rw [encStream_cons] at h
    have hdec : c.decode (s.drop pos) = .ok v (c.encode v).length := by
      rw [h]; exact hc.decode_encode v _
    have hdrop : s.drop (pos + (c.encode v).length) = encStream c vs :=
      drop_add_of_drop_eq h
    have ih := scan_ok hc vs f (pos + (c.encode v).length) (acc ++ [pos])
      (tr ++ [.tell, .load]) s hdrop (by simpa using Nat.lt_of_succ_le hf)
    simp only [scanLoop, hdec]
    rw [ih]
    simp [offsetsFrom, encStream_cons, List.append_assoc, Nat.add_assoc]

/-- The index-build loop over a stream whose tail at `pos` is the encodings
of `vs` followed by bytes on which the decoder raises a non-EOF exception:
the exception propagates out of the loop. -/
theorem scan_bad {α : Type} {c : Codec α} (hc : LawfulCodec c) :
    ∀ (vs : List α) (junk : List Byte) (fuel pos : Nat) (acc : List Nat)
      (tr : List Ev) (s : List Byte),
      s.drop pos = encStream c vs ++ junk → c.decode junk = .loadError →
      vs.length + 1 ≤ fuel →
      (scanLoop c s fuel pos acc tr).1 = .error .loadError
  | [], junk, fuel, pos, acc, tr, s, h, hj, hf => by
    obtain ⟨f, rfl⟩ : ∃ f, fuel = f + 1 := ⟨fuel - 1, by omega⟩
    rw [encStream_nil, List.nil_append] at h
    simp [scanLoop, h, hj]
  | v :: vs, junk, fuel, pos, acc, tr, s, h, hj, hf => by
    obtain ⟨f, rfl⟩ : ∃ f, fuel = f + 1 := ⟨fuel - 1, by omega⟩
    rw [encStream_cons, List.append_assoc] at h
    have hdec : c.decode (s.drop pos) = .ok v (c.encode v).length := by
      rw [h]; exact hc.decode_encode v _
    have hdrop : s.drop (pos + (c.encode v).length) = encStream c vs ++ junk :=
      drop_add_of_drop_eq h
    have ih := scan_bad hc vs junk f (pos + (c.encode v).length) (acc ++ [pos])
      (tr ++ [.tell, .load]) s hdrop hj (by simpa using Nat.lt_of_succ_le hf)
    simp only [scanLoop, hdec]
    exact ih

/-- Whenever the index-build loop terminates normally, the decode attempt at
the final cursor position raised the clean end-of-stream signal. -/
theorem scan_ok_eof {α : Type} {c : Codec α} {data : List Byte} :
    ∀ (fuel pos : Nat) (acc ps : List Nat) (tr : List Ev) (endPos : Nat),
      (scanLoop c data fuel pos acc tr).1 = .ok (ps, endPos) →
      c.decode (data.drop endPos) = .eofError
  | 0, pos, acc, ps, tr, endPos, h => by simp [scanLoop] at h
  | fuel + 1, pos, acc, ps, tr, endPos, h => by
    rcases hdec : c.decode (data.drop pos) with ⟨v, consumed⟩ | _ | _
    · rw [show (scanLoop c data (fuel + 1) pos acc tr)
            = scanLoop c data fuel (pos + consumed) (acc ++ [pos]) (tr ++ [.tell, .load])
          from by simp [scanLoop, hdec]] at h
      exact scan_ok_eof fuel (pos + consumed) (acc ++ [pos]) ps
        (tr ++ [.tell, .load]) endPos h
    · have : pos = endPos := by simp [scanLoop, hdec] at h; exact h.2
      rw [← this]; exact hdec
    · simp [scanLoop, hdec] at h

/-- The `i`-th reconstructed offset is `base` plus the total size of the
first `i` encodings. -/
theorem offsetsFrom_get? {α : Type} (c : Codec α) :
    ∀ (vs : List α) (i base : Nat), i < vs.length →
      (offsetsFrom c base vs).get? i = some (base + (encStream c (vs.take i)).length)
  | [], i, base, h => by simp at h
  | v :: vs, 0, base, _ => by simp [offsetsFrom, encStream_nil]
  | v :: vs, i + 1, base, h => by
    have ih := offsetsFrom_get? c vs i (base + (c.encode v).length)
      (by simpa using Nat.lt_of_succ_lt_succ h)
    simp only [offsetsFrom, List.get?, ih, List.take, encStream_cons,
      List.length_append]
    rw [Nat.add_assoc]

/-- Dropping the first `i` encodings from the stream leaves the encodings of
the remaining values. -/
theorem drop_encStream {α : Type} (c : Codec α) :
    ∀ (vs : List α) (i : Nat),
      (encStream c vs).drop (encStream c (vs.take i)).length = encStream c (vs.drop i)
  | vs, 0 => by simp [encStream_nil]
  | [], i + 1 => by simp [encStream_nil]
  | v :: vs, i + 1 => by
    have ih := drop_encStream c vs i
    simp only [List.take, List.drop, encStream_cons, List.length_append]
    rw [List.drop_append]
    exact ih

/-- The offsets laid out from `base` start at `base` when there is at least
one record. -/
theorem offsetsFrom_head? {α : Type} (c : Codec α) (v : α) (vs : List α) (base : Nat) :
    (offsetsFrom c base (v :: vs)).head? = some base := rfl

/-- For a lawful codec the offset index is strictly increasing. -/
theorem chain'_offsetsFrom {α : Type} {c : Codec α} (hc : LawfulCodec c) :
    ∀ (vs : List α) (base : Nat), List.Chain' (· < ·) (offsetsFrom c base vs)
  | [], _ => List.chain'_nil
  | [v], base => by simp [offsetsFrom]
  | v :: v' :: vs, base => by
    have ih := chain'_offsetsFrom hc (v' :: vs) (base + (c.encode v).length)
    have hk : 0 < (c.encode v).length := List.length_pos.mpr (hc.encode_ne_nil v)
    exact List.Chain'.cons (by omega) ih

/-- `pyListGet` with a non-negative index is plain list lookup. -/
theorem pyListGet_ofNat {γ : Type} (l : List γ) (i : Nat) :
    pyListGet l (i : Int) = l.get? i := by
  simp [pyListGet]

/-- `pyListGet l (-1)` fails exactly on the empty list (Python's negative
indexing counts from the end). -/
theorem pyListGet_neg_one {γ : Type} (l : List γ) :
    pyListGet l (-1) = if l.isEmpty then none else l.get? (l.length - 1) := by
  cases l with
  | nil => simp [pyListGet]
  | cons a l =>
    have h1 : ¬ (0 : Int) ≤ -1 := by omega
    have h2 : -(((a :: l).length : Nat) : Int) ≤ -1 := by
      simp only [List.length_cons]
      omega
    simp [pyListGet, h1, h2]

/-- `pyListGet l l.length` is out of range. -/
theorem pyListGet_length {γ : Type} (l : List γ) :
    pyListGet l (l.length : Int) = none := by
  rw [pyListGet_ofNat]
  exact List.get?_eq_none.mpr (Nat.le_refl _)

/-! ### The states reached by writing `vs` and reopening the stream -/

/-- The writer state after writing the values `vs` in order over a fresh
file. -/
def writerFor {α : Type} (c : Codec α) (vs : List α) : PickleDatasetWriter :=
  writeAll c PickleDatasetWriter.empty vs

/-- The stream produced by writing `vs`, reopened for reading (`open` in
`'br'` mode: seekable, cursor at 0). -/
def streamFor {α : Type} (c : Codec α) (vs : List α) : ReaderStream :=
  ⟨true, (writerFor c vs).streamData, 0⟩

/-- The dataset state `PickleDataset.__init__` builds over `streamFor c vs`:
the reconstructed offset index, and the cursor resting at the end of the
stream where the scan hit `EOFError`. -/
def expectedDS {α : Type} (c : Codec α) (vs : List α) : PickleDataset α :=
  ⟨offsetsFrom c 0 vs, ⟨true, encStream c vs, (encStream c vs).length⟩⟩

/-- Overwrite the reader cursor, leaving index and data untouched: the state
of the dataset after arbitrary earlier lookups. -/
def withPos {α : Type} (d : PickleDataset α) (q : Nat) : PickleDataset α :=
  { d with reader := { d.reader with pos := q } }

theorem writerFor_eq {α : Type} (c : Codec α) (vs : List α) :
    writerFor c vs = ⟨offsetsFrom c 0 vs, encStream c vs⟩ := by
  rw [writerFor, writeAll_eq]
  rfl

theorem streamFor_eq {α : Type} (c : Codec α) (vs : List α) :
    streamFor c vs = ⟨true, encStream c vs, 0⟩ := by
  rw [streamFor, writerFor_eq]

/-- Reopening the stream written for `vs` builds exactly the expected
dataset: the reconstructed offsets, with the cursor at the end. -/
theorem init_streamFor {α : Type} {c : Codec α} (hc : LawfulCodec c) (vs : List α) :
    (PickleDataset.init c (streamFor c vs)).1 = .ok (expectedDS c vs) := by
  rw [streamFor_eq]
  have hscan := scan_ok hc vs ((encStream c vs).length + 1) 0 [] [Ev.seekableQ, Ev.seek 0]
    (encStream c vs) (by rw [List.drop_zero])
    (by have := length_le_length_encStream hc vs; omega)
  simp [PickleDataset.init, hscan, expectedDS]

/-- `get_example` over the expected dataset, from an arbitrary prior cursor
position, returns the `i`-th written value. -/
theorem get_expectedDS {α : Type} {c : Codec α} (hc : LawfulCodec c) (vs : List α)
    (i : Nat) (hi : i < vs.length) (q : Nat) :
    (PickleDataset.get_example c (withPos (expectedDS c vs) q) (i : Int)).1
      = .ok (vs.get ⟨i, hi⟩) := by
  have hget : pyListGet (offsetsFrom c 0 vs) (i : Int)
      = some ((encStream c (vs.take i)).length) := by
    rw [pyListGet_ofNat]
    simpa using offsetsFrom_get? c vs i 0 hi
  have hdec : c.decode ((encStream c vs).drop (encStream c (vs.take i)).length)
      = .ok (vs.get ⟨i, hi⟩) (c.encode (vs.get ⟨i, hi⟩)).length := by
    rw [drop_encStream, List.drop_eq_get_cons hi, encStream_cons]
    exact hc.decode_encode _ _
  simp [PickleDataset.get_example, withPos, expectedDS, hget, hdec]

/-- A `get_example` call never changes the offset index or the stream
contents — only the cursor can move. -/
theorem get_example_preserves {α : Type} (c : Codec α) (d : PickleDataset α)
    (j : Int) :
    ((PickleDataset.get_example c d j).2.1).positions = d.positions
    ∧ ((PickleDataset.get_example c d j).2.1).reader.data = d.reader.data := by
  rcases hp : pyListGet d.positions j with _ | p
  · simp [PickleDataset.get_example, hp]
  · rcases hdec : c.decode (d.reader.data.drop p) with v | _ | _ <;>
      simp [PickleDataset.get_example, hp, hdec]

/-! ### Claims -/

/-- C1: for every finite sequence of values written in order via
`PickleDatasetWriter.write`, a `PickleDataset` constructed over the resulting
stream succeeds, has `len()` equal to the number of writes, and
`get_example(i)` returns exactly the `i`-th written value for every
`i ∈ [0, n)` — from any prior cursor position, so lookups may be made in any
order, repeated, or reversed; moreover no lookup changes the offset index or
the stream data. -/
theorem c1_round_trip {α : Type} (c : Codec α) (hc : LawfulCodec c) (vs : List α) :
    (PickleDataset.init c (streamFor c vs)).1 = .ok (expectedDS c vs)
    ∧ (PickleDataset.length (expectedDS c vs)).1 = vs.length
    ∧ (∀ (i : Nat) (hi : i < vs.length) (q : Nat),
        (PickleDataset.get_example c (withPos (expectedDS c vs) q) (i : Int)).1
          = .ok (vs.get ⟨i, hi⟩))
    ∧ (∀ (j : Int) (q : Nat),
        ((PickleDataset.get_example c (withPos (expectedDS c vs) q) j).2.1).positions
            = (expectedDS c vs).positions
        ∧ ((PickleDataset.get_example c (withPos (expectedDS c vs) q) j).2.1).reader.data
            = (expectedDS c vs).reader.data) := by
  refine ⟨init_streamFor hc vs, ?_, fun i hi q => get_expectedDS hc vs i hi q,
    fun j q => get_example_preserves c (withPos (expectedDS c vs) q) j⟩
  simp [PickleDataset.length, expectedDS, length_offsetsFrom]

/-- C1 witness: writing `[5, 9]` with the length-prefixed codec, reopening,
and looking up index 1 from cursor position 4 yields the value 9. -/
theorem c1_witness :
    (PickleDataset.init lenCodec (streamFor lenCodec [5, 9])).1
        = .ok (expectedDS lenCodec [5, 9])
    ∧ (PickleDataset.get_example lenCodec (withPos (expectedDS lenCodec [5, 9]) 4)
        ((1 : Nat) : Int)).1 = .ok 9 :=
  ⟨(c1_round_trip lenCodec lenCodec_lawful [5, 9]).1,
   (c1_round_trip lenCodec lenCodec_lawful [5, 9]).2.2.1 1 (by decide) 4⟩

/-- C3 (amended): `get_example(n)` always fails with `IndexError`, but
`get_example(-1)` fails with `IndexError` exactly when the dataset is empty —
for `n ≥ 1` Python's negative indexing maps `-1` to the last record instead
of raising. -/
theorem c3_bounds_amended {α : Type} (c : Codec α) (d : PickleDataset α) :
    (PickleDataset.get_example c d (d.positions.length : Int)).1
        = .error .indexError
    ∧ ((PickleDataset.get_example c d (-1)).1 = .error GetErr.indexError
        ↔ d.positions = []) := by
  refine ⟨by simp [PickleDataset.get_example, pyListGet_length], ?_⟩
  have key : pyListGet d.positions (-1) = none ↔ d.positions = [] := by
    cases hp : d.positions with
    | nil => simp [pyListGet]
    | cons a l =>
      rw [pyListGet_neg_one]
      simp [List.get?_eq_get (show l.length < (a :: l).length by simp)]
  rcases hp : pyListGet d.positions (-1) with _ | p
  · constructor
    · intro _
      exact key.mp hp
    · intro _
      simp [PickleDataset.get_example, hp]
  · have hne : d.positions ≠ [] := by
      intro h
      rw [key.mpr h] at hp
      exact Option.noConfusion hp
    rcases hdec : c.decode (d.reader.data.drop p) with v | _ | _ <;>
      simp [PickleDataset.get_example, hp, hdec, hne]

/-- C3 counterexample: over the single-record stream `[1, 5]` produced by
writing `[5]`, construction succeeds with index `[0]`, yet
`get_example(-1)` does *not* fail out-of-range — it returns the last written
value 5, because `self.positions[index]` uses Python list indexing. -/
theorem c3_counterexample :
    (writerFor lenCodec [5]).streamData = [1, 5]
    ∧ (PickleDataset.init lenCodec ⟨true, [1, 5], 0⟩).1
        = .ok ⟨[0], ⟨true, [1, 5], 2⟩⟩
    ∧ (PickleDataset.get_example lenCodec ⟨[0], ⟨true, [1, 5], 2⟩⟩ (-1)).1
        = .ok 5 := by
  refine ⟨rfl, ?_, ?_⟩ <;> rfl

/-- C4: the claim says `close()` completes normally and closes the reader
stream; in the code `close` executes `with self._lock():`, which calls the
non-callable `threading.RLock` object and raises `TypeError` before
`self.reader.close()` can run, on every constructed dataset. -/
theorem c4_close_raises_type_error {α : Type} (d : PickleDataset α) :
    PickleDataset.close d = .error PyErr.typeError := rfl

/-- A `pickle.dump` that raises after emitting the single byte 9. -/
def failDump : Nat → Except (List Byte) (List Byte) := fun _ => .error [9]

/-- C5 counterexample: on a fresh writer, a `write` whose `pickle.dump`
raises (after emitting the byte 9) leaves `positions = []` — the captured
offset 0 is *not* recorded in the index, because
`self.positions.append(position)` runs only after `pickle.dump` returns.
The claim that the index would contain an offset for the never-written
record is therefore false. -/
theorem c5_counterexample :
    PickleDatasetWriter.writeD PickleDatasetWriter.empty failDump 7
      = .error ⟨[], [9]⟩ := rfl

/-- C5 (amended): in `write`, the offset is captured from `tell()` before
encoding, but it is appended to the Writer's offset index only after
`pickle.dump` returns; if encoding fails mid-write, the exception propagates
with `positions` unchanged (no index entry for the failed record), while the
stream may retain the partially emitted bytes. -/
theorem c5_offset_appended_after_dump {α : Type} (w : PickleDatasetWriter)
    (dump : α → Except (List Byte) (List Byte)) (x : α) (emitted : List Byte)
    (h : dump x = .error emitted) :
    PickleDatasetWriter.writeD w dump x
      = .error ⟨w.positions, w.streamData ++ emitted⟩ := by
  simp [PickleDatasetWriter.writeD, h]

/-- C5 witness: a failing dump on a writer that already holds one record. -/
theorem c5_witness :
    PickleDatasetWriter.writeD ⟨[0], [1, 5]⟩ failDump 7
      = .error ⟨[0], [1, 5, 9]⟩ :=
  c5_offset_appended_after_dump ⟨[0], [1, 5]⟩ failDump 7 [9] rfl

/-- C7: constructing a `PickleDataset` over a stream whose `seekable()` is
false raises `ValueError`, and the only stream operation performed is the
`seekable()` query itself — no seek, tell, or read is issued. -/
theorem c7_nonseekable_rejected {α : Type} (c : Codec α) (r : ReaderStream)
    (h : r.seekable = false) :
    (PickleDataset.init c r).1 = .error PyErr.valueError
    ∧ (PickleDataset.init c r).2 = [Ev.seekableQ] := by
  simp [PickleDataset.init, h]

/-- C7 witness: a non-seekable stream holding valid record bytes is still
rejected without being read. -/
theorem c7_witness :
    (PickleDataset.init lenCodec ⟨false, [1, 5], 0⟩).1 = .error PyErr.valueError
    ∧ (PickleDataset.init lenCodec ⟨false, [1, 5], 0⟩).2 = [Ev.seekableQ] :=
  c7_nonseekable_rejected lenCodec ⟨false, [1, 5], 0⟩ rfl

/-- C8: when `open(path, 'br')` succeeds but `PickleDataset` construction
fails, `open_pickle_dataset` closes the just-opened handle and re-raises the
original exception unchanged — whether or not the cleanup `close()` itself
raises (its error is discarded). -/
theorem c8_cleanup_preserves_error {α : Type} (c : Codec α) (env : OpenEnv)
    (reader : ReaderStream) (e : PyErr)
    (h1 : env.openResult = .ok reader)
    (h2 : (PickleDataset.init c reader).1 = .error e) :
    open_pickle_dataset c env = (.error e, true) := by
  obtain ⟨o, cr⟩ := env
  simp only at h1
  subst h1
  cases cr <;> simp [open_pickle_dataset, h2]

/-- C8 witness: opening succeeds over a non-seekable stream, construction
fails with `ValueError`, the cleanup close itself raises, and yet the caller
sees the original `ValueError` with the handle closed. -/
theorem c8_witness :
    open_pickle_dataset lenCodec ⟨.ok ⟨false, [], 0⟩, true⟩
      = (.error PyErr.valueError, true) :=
  c8_cleanup_preserves_error lenCodec ⟨.ok ⟨false, [], 0⟩, true⟩
    ⟨false, [], 0⟩ PyErr.valueError rfl rfl

/-- C9: every `get_example` call acquires the Reader-owned lock first and
releases it last, and the only events between them are the seek and the
decode's read — so the seek+read pair is uninterleaved under the lock on
every path, including errors; `__len__` issues no lock or stream event at
all. -/
theorem c9_lock_discipline {α : Type} (c : Codec α) (d : PickleDataset α) (i : Int) :
    (∃ mid, (PickleDataset.get_example c d i).2.2
          = Ev.acquire :: (mid ++ [Ev.release])
        ∧ ∀ e ∈ mid, (∃ p, e = Ev.seek p) ∨ e = Ev.load)
    ∧ (PickleDataset.length d).2 = [] := by
  refine ⟨?_, rfl⟩
  rcases hp : pyListGet d.positions i with _ | p
  · refine ⟨[], by simp [PickleDataset.get_example, hp], ?_⟩
    intro e he
    cases he
  · have hmem : ∀ e ∈ [Ev.seek p, Ev.load], (∃ q, e = Ev.seek q) ∨ e = Ev.load := by
      intro e he
      simp only [List.mem_cons, List.not_mem_nil, or_false] at he
      rcases he with rfl | rfl
      · exact Or.inl ⟨p, rfl⟩
      · exact Or.inr rfl
    rcases hdec : c.decode (d.reader.data.drop p) with v | _ | _ <;>
      exact ⟨[Ev.seek p, Ev.load],
        by simp [PickleDataset.get_example, hp, hdec], hmem⟩

/-- C10: a `get_example` call whose offset-index lookup fails raises
`IndexError` with no seek or read issued to the stream: the dataset state
(offset index, stream data, cursor) is returned unchanged and the only
events are the lock acquire and its release. -/
theorem c10_failed_lookup_leaves_state {α : Type} (c : Codec α)
    (d : PickleDataset α) (i : Int) (h : pyListGet d.positions i = none) :
    (PickleDataset.get_example c d i).1 = .error GetErr.indexError
    ∧ (PickleDataset.get_example c d i).2.1 = d
    ∧ (PickleDataset.get_example c d i).2.2 = [Ev.acquire, Ev.release] := by
  simp [PickleDataset.get_example, h]

/-- C10 witness: looking up index 3 in a two-record dataset fails and leaves
the dataset state untouched. -/
theorem c10_witness :
    (PickleDataset.get_example lenCodec ⟨[0, 2], ⟨true, [1, 5, 1, 9], 4⟩⟩ 3).1
        = .error GetErr.indexError
    ∧ (PickleDataset.get_example lenCodec ⟨[0, 2], ⟨true, [1, 5, 1, 9], 4⟩⟩ 3).2.1
        = ⟨[0, 2], ⟨true, [1, 5, 1, 9], 4⟩⟩
    ∧ (PickleDataset.get_example lenCodec ⟨[0, 2], ⟨true, [1, 5, 1, 9], 4⟩⟩ 3).2.2
        = [Ev.acquire, Ev.release] :=
  c10_failed_lookup_leaves_state lenCodec ⟨[0, 2], ⟨true, [1, 5, 1, 9], 4⟩⟩ 3 (by decide)

/-- C2: the index-build loop of Reader construction stops only on the clean
end-of-stream signal — whenever construction succeeds, the decode attempt at
the final cursor position raised `EOFError`; and a stream that is a valid
record sequence followed by bytes on which the decoder raises any other
error (e.g. a truncated record) makes construction fail with that fatal
error, so no Reader value exists in a partially-built state. -/
theorem c2_eof_only_termination {α : Type} (c : Codec α) (hc : LawfulCodec c)
    (r : ReaderStream) :
    (∀ d : PickleDataset α, (PickleDataset.init c r).1 = .ok d →
        c.decode (d.reader.data.drop d.reader.pos) = .eofError)
    ∧ (∀ (vs : List α) (junk : List Byte), r.seekable = true →
        r.data = encStream c vs ++ junk → c.decode junk = .loadError →
        (PickleDataset.init c r).1 = .error PyErr.loadError) := by
  constructor
  · intro d hd
    by_cases hs : r.seekable = false
    · simp [PickleDataset.init, hs] at hd
    · rcases hscan : (scanLoop c r.data (r.data.length + 1) 0 []
          [Ev.seekableQ, Ev.seek 0]).1 with e | ⟨ps, endPos⟩
      · simp [PickleDataset.init, hs, hscan] at hd
      · have hd' : (⟨ps, { r with pos := endPos }⟩ : PickleDataset α) = d := by
          simpa [PickleDataset.init, hs, hscan] using hd
        have heof := scan_ok_eof (r.data.length + 1) 0 [] ps
          [Ev.seekableQ, Ev.seek 0] endPos hscan
        rw [← hd']
        exact heof
  · intro vs junk hs hdata hjunk
    have hfuel : vs.length + 1 ≤ r.data.length + 1 := by
      have h1 := length_le_length_encStream hc vs
      rw [hdata]
      simp only [List.length_append]
      omega
    have hscan := scan_bad hc vs junk (r.data.length + 1) 0 []
      [Ev.seekableQ, Ev.seek 0] r.data (by rw [List.drop_zero, hdata]) hjunk hfuel
    simp [PickleDataset.init, hs, hscan]

/-- C2 witness: the stream `[1, 5, 1]` — one full record followed by a
record truncated after its header byte — makes Reader construction fail with
the propagated load error rather than being treated as end-of-stream. -/
theorem c2_witness :
    (PickleDataset.init lenCodec ⟨true, [1, 5, 1], 0⟩).1 = .error PyErr.loadError :=
  (c2_eof_only_termination lenCodec lenCodec_lawful ⟨true, [1, 5, 1], 0⟩).2
    [5] [1] rfl rfl rfl

/-- C6: for a stream produced by writes starting at position 0, the Writer's
offset list equals the laid-out offsets, is strictly increasing, starts at 0
when non-empty, and has one entry per record — and the index a Reader
reconstructs over that stream is exactly the Writer's.  Quantifying over all
`vs` covers the Writer state after every prefix of write calls. -/
theorem c6_offsets_invariant {α : Type} (c : Codec α) (hc : LawfulCodec c)
    (vs : List α) :
    (writerFor c vs).positions = offsetsFrom c 0 vs
    ∧ List.Chain' (· < ·) (writerFor c vs).positions
    ∧ (writerFor c vs).positions.length = vs.length
    ∧ (vs ≠ [] → (writerFor c vs).positions.head? = some 0)
    ∧ ∀ d : PickleDataset α, (PickleDataset.init c (streamFor c vs)).1 = .ok d →
        d.positions = (writerFor c vs).positions := by
  have hw : (writerFor c vs).positions = offsetsFrom c 0 vs := by
    rw [writerFor_eq]
  refine ⟨hw, ?_, ?_, ?_, ?_⟩
  · rw [hw]
    exact chain'_offsetsFrom hc vs 0
  · rw [hw, length_offsetsFrom]
  · intro hne
    rw [hw]
    cases vs with
    | nil => exact absurd rfl hne
    | cons v vs => exact offsetsFrom_head? c v vs 0
  · intro d hd
    rw [init_streamFor hc vs] at hd
    have : expectedDS c vs = d := by
      injection hd
    rw [← this, hw]
    rfl

/-- C6 witness: writing `[5, 9]` records offsets `[0, 2]`, strictly
increasing, and reopening reconstructs the same index. -/
theorem c6_witness :
    (writerFor lenCodec [5, 9]).positions = [0, 2]
    ∧ List.Chain' (· < ·) (writerFor lenCodec [5, 9]).positions
    ∧ ((PickleDataset.init lenCodec (streamFor lenCodec [5, 9])).1
          = .ok (expectedDS lenCodec [5, 9]) →
        (expectedDS lenCodec [5, 9]).positions
          = (writerFor lenCodec [5, 9]).positions) := by
  have h := c6_offsets_invariant lenCodec lenCodec_lawful [5, 9]
  exact ⟨by rw [h.1]; rfl, h.2.1, h.2.2.2.2 (expectedDS lenCodec [5, 9])⟩
